import Mathlib

/-!
Shallow embedding of the repository's three Python scripts —
`agent/kalshi_agent.py`, `assignment-scripts/cat-facts.py` and
`assignment-scripts/holidays.py` — together with proofs of the
specification claims about them.

Python floats are modelled as rationals (`ℚ`), Python dictionaries of known
shape as structures, and every effectful function as an explicit function of
the environment's behaviour (the outcome of each HTTP request is an input).
-/

namespace KalshiAgent

/-- Python scalar values that can appear in the JSON dictionaries the agent
manipulates: strings, integers, booleans and `None`. -/
inductive PVal where
  | pstr (s : String)
  | pint (n : Int)
  | pbool (b : Bool)
  | pnull
  deriving DecidableEq, Repr

/-- Python truthiness of a `PVal`: the empty string, zero, `False` and `None`
are falsy, everything else is truthy. -/
def PVal.truthy : PVal → Bool
  | .pstr s => !(s == "")
  | .pint n => !(n == 0)
  | .pbool b => b
  | .pnull => false

/-- Raw market data as returned by the API: each of the six fields read by
`process_data` may be absent from the response dictionary. -/
structure RawMarket where
  ticker : Option PVal
  title : Option PVal
  category : Option PVal
  status : Option PVal
  last_price : Option PVal
  volume : Option PVal
  deriving DecidableEq, Repr

/-- A processed record as built by `process_data`: all seven keys are always
present. -/
structure Record where
  ticker : PVal
  title : PVal
  category : PVal
  status : PVal
  last_price : PVal
  volume : PVal
  collection_timestamp : PVal
  deriving DecidableEq, Repr

/-- Embedding of `process_data`: each field defaults via `data.get(key, default)`;
`ts` stands for the `datetime.now().isoformat()` string taken at call time. -/
def processData (data : RawMarket) (ts : String) : Record :=
  { ticker := data.ticker.getD (.pstr "N/A")
    title := data.title.getD (.pstr "N/A")
    category := data.category.getD (.pstr "Unknown")
    status := data.status.getD (.pstr "Unknown")
    last_price := data.last_price.getD (.pint 0)
    volume := data.volume.getD (.pint 0)
    collection_timestamp := .pstr ts }

/-- One required-field check of `validate_data`: the field value must be
truthy and must differ from the string `N/A`. -/
def fieldOk (v : PVal) : Bool :=
  v.truthy && !(v == PVal.pstr "N/A")

/-- Embedding of `validate_data`: the record passes iff each of the fields
`ticker`, `title` and `category` is truthy and not `N/A`. -/
def validateData (data : Record) : Bool :=
  fieldOk data.ticker && fieldOk data.title && fieldOk data.category

/-- The `collection_stats` counters of the agent (`start_time` is omitted:
it is only read to compute the elapsed duration of the final report). -/
structure CollectionStats where
  total_requests : Nat
  successful_requests : Nat
  failed_requests : Nat
  deriving DecidableEq, Repr

/-- The configuration keys the agent reads. -/
structure Config where
  base_delay : ℚ
  num_markets : Nat
  status_filter : String
  deriving DecidableEq, Repr

/-- Embedding of `_default_config`. -/
def defaultConfig : Config :=
  { base_delay := 1, num_markets := 5, status_filter := "open" }

/-- The mutable state of a `KalshiDataAgent`. -/
structure AgentState where
  config : Config
  data_store : List Record
  collection_stats : CollectionStats
  delay_multiplier : ℚ
  deriving DecidableEq, Repr

/-- The state set up by `__init__` with the default configuration. -/
def initState : AgentState :=
  { config := defaultConfig
    data_store := []
    collection_stats :=
      { total_requests := 0, successful_requests := 0, failed_requests := 0 }
    delay_multiplier := 1 }

/-- Embedding of `get_success_rate`: `successful / total if total > 0 else 1.0`. -/
def getSuccessRate (stats : CollectionStats) : ℚ :=
  if 0 < stats.total_requests then
    (stats.successful_requests : ℚ) / (stats.total_requests : ℚ)
  else 1

/-- Embedding of `adjust_strategy`: double the delay multiplier below a 0.5
success rate, multiply it by 0.8 above 0.9, otherwise leave it unchanged. -/
def adjustStrategy (st : AgentState) : AgentState :=
  let success_rate := getSuccessRate st.collection_stats
  if success_rate < 1/2 then
    { st with delay_multiplier := st.delay_multiplier * 2 }
  else if 9/10 < success_rate then
    { st with delay_multiplier := st.delay_multiplier * (4/5) }
  else st

/-- Environment behaviour of one HTTP request made by `make_api_request`:
a 200 response whose body parses to an object with a `markets` list, a 200
response whose body makes `.json()` (or the `.get` on its result) raise, a
non-200 status code, or an exception raised by the request itself. -/
inductive ApiOutcome where
  | ok (markets : List RawMarket)
  | okBadBody
  | httpError
  | requestError
  deriving DecidableEq, Repr

/-- Embedding of `make_api_request`: `total_requests` is always incremented;
on a 200 response `successful_requests` is incremented before the body is
parsed, so a body that fails to parse additionally increments
`failed_requests` inside the `except` handler; non-200 and raised requests
increment `failed_requests`.  The returned value is `markets[0] if markets
else None`. -/
def makeApiRequest (stats : CollectionStats) :
    ApiOutcome → CollectionStats × Option RawMarket
  | .ok markets =>
      ({ stats with
          total_requests := stats.total_requests + 1
          successful_requests := stats.successful_requests + 1 },
        markets.head?)
  | .okBadBody =>
      ({ total_requests := stats.total_requests + 1
         successful_requests := stats.successful_requests + 1
         failed_requests := stats.failed_requests + 1 }, none)
  | .httpError =>
      ({ stats with
          total_requests := stats.total_requests + 1
          failed_requests := stats.failed_requests + 1 }, none)
  | .requestError =>
      ({ stats with
          total_requests := stats.total_requests + 1
          failed_requests := stats.failed_requests + 1 }, none)

/-- Embedding of `collect_batch`: call `adjust_strategy` when the success
rate is below 0.8, then perform `make_api_request`. -/
def collectBatch (st : AgentState) (o : ApiOutcome) :
    AgentState × Option RawMarket :=
  let st1 := if getSuccessRate st.collection_stats < 4/5 then adjustStrategy st else st
  let p := makeApiRequest st1.collection_stats o
  ({ st1 with collection_stats := p.1 }, p.2)

/-- Embedding of `process_and_store`: process the data and append it to the
store only when `validate_data` accepts it. -/
def processAndStore (st : AgentState) (data : RawMarket) (ts : String) : AgentState :=
  let processed := processData data ts
  if validateData processed then
    { st with data_store := st.data_store ++ [processed] }
  else st

/-- One iteration of the loop body of `run_collection`: `collect_batch`
followed by `process_and_store` when data was returned
(`assess_performance` and `respectful_delay` only log and sleep). -/
def runStep (st : AgentState) (o : ApiOutcome) (ts : String) : AgentState :=
  let p := collectBatch st o
  match p.2 with
  | some d => processAndStore p.1 d ts
  | none => p.1

/-- Iterated `runStep` over a list of per-iteration environment outcomes. -/
def runAll (st : AgentState) (steps : List (ApiOutcome × String)) : AgentState :=
  steps.foldl (fun s p => runStep s p.1 p.2) st

/-- The values of a processed record, in the dictionary's insertion order. -/
def recordValues (r : Record) : List PVal :=
  [r.ticker, r.title, r.category, r.status, r.last_price, r.volume,
    r.collection_timestamp]

/-- The keys of a processed record, in the dictionary's insertion order. -/
def recordKeys (_ : Record) : List String :=
  ["ticker", "title", "category", "status", "last_price", "volume",
    "collection_timestamp"]

/-- Count of the fields of one record that are truthy and not `N/A`,
as in the inner comprehension of `check_completeness`. -/
def filledFields (r : Record) : Nat :=
  (recordValues r).countP (fun v => v.truthy && !(v == PVal.pstr "N/A"))

/-- Embedding of `check_completeness`. -/
def checkCompleteness (store : List Record) : ℚ :=
  if store = [] then 0
  else
    let total_fields := (store.map (fun item => (recordValues item).length)).sum
    let filled_fields := (store.map filledFields).sum
    if 0 < total_fields then (filled_fields : ℚ) / (total_fields : ℚ) else 0

/-- Python's `isinstance(v, (int, float))` on a `PVal`: integers and booleans
qualify (`bool` is a subclass of `int`). -/
def isNumericInstance : PVal → Bool
  | .pint _ => true
  | .pbool _ => true
  | _ => false

/-- Embedding of `check_accuracy`. -/
def checkAccuracy (store : List Record) : ℚ :=
  if store = [] then 0
  else
    ((store.countP (fun item =>
        isNumericInstance item.last_price && isNumericInstance item.volume)) : ℚ) /
      (store.length : ℚ)

/-- Embedding of `check_consistency`. -/
def checkConsistency (store : List Record) : ℚ :=
  if store.length < 2 then 1
  else
    match store with
    | [] => 1
    | r0 :: _ =>
        ((store.countP (fun item => recordKeys item == recordKeys r0)) : ℚ) /
          (store.length : ℚ)

/-- Embedding of `assess_data_quality`: 0 on an empty store, otherwise the
sum of the four metric values divided by their number. -/
def assessDataQuality (store : List Record) : ℚ :=
  if store = [] then 0
  else
    let quality_metrics :=
      [checkCompleteness store, checkAccuracy store, checkConsistency store, (1 : ℚ)]
    quality_metrics.sum / (quality_metrics.length : ℚ)

/-- File paths opened for writing by `save_reports`, in order. -/
def saveReportsFiles : List String :=
  ["../json-outputs/kalshi_collected_data.json",
   "../json-outputs/kalshi_collection_summary.json",
   "../json-outputs/kalshi_quality_report.json",
   "../json-outputs/kalshi_metadata.json"]

end KalshiAgent

namespace CatFacts

/-- Environment behaviour of one request of the loop in `get_cat_facts`:
a 200 response whose body yields `data.get("fact")` (possibly absent),
a non-200 status code, or a raised exception. -/
inductive FactOutcome where
  | ok (fact : Option String)
  | httpErr
  | raised
  deriving DecidableEq, Repr

/-- Embedding of the request loop of `get_cat_facts`, returning the collected
facts together with the number of requests actually attempted.  The single
`try` block wraps the whole loop, so a raised exception aborts all remaining
iterations; a fact is appended only when it is truthy. -/
def factsLoop : List FactOutcome → List String × Nat
  | [] => ([], 0)
  | .raised :: _ => ([], 1)
  | .ok fact :: rest =>
      let p := factsLoop rest
      (match fact with
       | some f => if f == "" then p.1 else f :: p.1
       | none => p.1,
       p.2 + 1)
  | .httpErr :: rest =>
      let p := factsLoop rest
      (p.1, p.2 + 1)

/-- Embedding of `get_cat_facts` on a run whose planned requests have the
given outcomes (one entry per loop iteration, `num_facts` in total). -/
def getCatFacts (outcomes : List FactOutcome) : List String × Nat :=
  factsLoop outcomes

/-- JSON file paths written per run of `cat-facts.py`: `save_facts_to_json`
is called only when the collected fact list is truthy (non-empty). -/
def catFactsFilesWritten (facts : List String) : List String :=
  if facts.isEmpty then [] else ["cat_facts.json"]

end CatFacts

namespace Holidays

/-- One holiday record as read by the script (only `name` and `date` are
accessed, each possibly absent). -/
structure Holiday where
  name : Option String
  date : Option String
  deriving DecidableEq, Repr

/-- Environment behaviour of the single request of `get_public_holidays`:
a parsed holiday list, or any of the failure modes (timeout, connection
error, HTTP error from `raise_for_status`, any other exception). -/
inductive HolOutcome where
  | ok (holidays : List Holiday)
  | raised
  deriving DecidableEq, Repr

/-- Embedding of `get_public_holidays`: every failure path is caught by its
own `except` clause and returns `None`. -/
def getPublicHolidays : HolOutcome → Option (List Holiday)
  | .ok hs => some hs
  | .raised => none

/-- Embedding of the driver loop of `holidays.py`: each country maps to its
holiday count, or to 0 when the request failed or returned an empty list. -/
def countriesSummary (results : List (String × HolOutcome)) : List (String × Nat) :=
  results.map (fun p =>
    match getPublicHolidays p.2 with
    | some hs => if hs.isEmpty then (p.1, 0) else (p.1, hs.length)
    | none => (p.1, 0))

/-- Python's `max(countries_data, key=countries_data.get)`: the first entry
with the maximal count (later entries replace only on a strict increase). -/
def maxByCount : List (String × Nat) → Option (String × Nat)
  | [] => none
  | p :: rest => some (rest.foldl (fun q r => if q.2 < r.2 then r else q) p)

/-- Python's `min(countries_data, key=countries_data.get)`: the first entry
with the minimal count (later entries replace only on a strict decrease). -/
def minByCount : List (String × Nat) → Option (String × Nat)
  | [] => none
  | p :: rest => some (rest.foldl (fun q r => if r.2 < q.2 then r else q) p)

/-- JSON file paths written per run of `holidays.py`: `create_holiday_summary`
is always called once and writes one file. -/
def holidaysFilesWritten : List String := ["holidays_summary.json"]

end Holidays

namespace PyJson

/-!
Model of the JSON trees the scripts serialize with `json.dump(value, f,
indent=2)` and of Python's `json` serializer and parser on them.  Strings
are lists of characters; numbers in the written values are integers.
`JArr` and `JObj` are the array and object spines (objects keep their
insertion order, as Python dictionaries do).
-/

mutual
inductive JVal where
  | jnull : JVal
  | jbool : Bool → JVal
  | jint : Int → JVal
  | jstr : List Char → JVal
  | jarr : JArr → JVal
  | jobj : JObj → JVal
inductive JArr where
  | anil : JArr
  | acons : JVal → JArr → JArr
inductive JObj where
  | onil : JObj
  | ocons : List Char → JVal → JObj → JObj
end

/-! Number of nodes of a JSON tree, used to bound the parser fuel. -/
mutual
def sizeV : JVal → Nat
  | .jarr xs => sizeA xs + 1
  | .jobj xs => sizeO xs + 1
  | _ => 1
def sizeA : JArr → Nat
  | .anil => 0
  | .acons v tl => sizeV v + sizeA tl + 1
def sizeO : JObj → Nat
  | .onil => 0
  | .ocons _ v tl => sizeV v + sizeO tl + 1
end

/-- The newline-plus-indentation separator `json.dump` emits with
`indent=2` before an element at nesting depth `d`. -/
def nlIndent (d : Nat) : List Char :=
  '\n' :: List.replicate (2 * d) ' '

/-- Lowercase hexadecimal digit, as in Python's `\uXXXX` escapes. -/
def hexDigitChar (n : Nat) : Char :=
  if n < 10 then Char.ofNat (48 + n) else Char.ofNat (87 + n)

/-- Escaping of one character inside a JSON string, as Python's serializer
does without `ensure_ascii`: the quote, the backslash and the control
characters below 0x20 are escaped (short forms for the common ones, a
`\u00XX` sequence otherwise); every other character is written as itself. -/
def escapeChar (c : Char) : List Char :=
  if c = '"' then ['\\', '"']
  else if c = '\\' then ['\\', '\\']
  else if c = '\n' then ['\\', 'n']
  else if c = '\t' then ['\\', 't']
  else if c = '\r' then ['\\', 'r']
  else if c = '\x08' then ['\\', 'b']
  else if c = '\x0c' then ['\\', 'f']
  else if c.toNat < 32 then
    '\\' :: 'u' :: '0' :: '0' ::
      hexDigitChar (c.toNat / 16) :: [hexDigitChar (c.toNat % 16)]
  else [c]

/-- A serialized JSON string: quote, escaped content, quote. -/
def renderString (s : List Char) : List Char :=
  '"' :: (s.flatMap escapeChar ++ ['"'])

/-- Decimal digit character. -/
def digitChar (n : Nat) : Char := Char.ofNat (48 + n)

/-- Fuel-indexed digit accumulation: prepend the digits of `n`, least
significant processed first, onto `acc`. -/
def renderNatAux : Nat → Nat → List Char → List Char
  | 0, _, acc => acc
  | fuel + 1, n, acc =>
      if n = 0 then acc
      else renderNatAux fuel (n / 10) (digitChar (n % 10) :: acc)

/-- Decimal rendering of a natural number, most significant digit first. -/
def renderNat (n : Nat) : List Char :=
  if n = 0 then ['0'] else renderNatAux n n []

/-- Decimal rendering of an integer, as Python's `repr`. -/
def renderInt : Int → List Char
  | .ofNat n => renderNat n
  | .negSucc m => '-' :: renderNat (m + 1)

/-! Serialization of a JSON tree exactly as `json.dump(value, f, indent=2)`
writes it: non-empty arrays and objects put every element on its own line
indented two spaces per depth level, empty ones are written `[]` and
`\x7b\x7d`, object entries use the `": "` key separator, and items are
separated by a comma before the newline. -/
mutual
def renderVal (d : Nat) (v : JVal) : List Char :=
  match v with
  | .jnull => ['n', 'u', 'l', 'l']
  | .jbool true => ['t', 'r', 'u', 'e']
  | .jbool false => ['f', 'a', 'l', 's', 'e']
  | .jint n => renderInt n
  | .jstr s => renderString s
  | .jarr .anil => ['[', ']']
  | .jarr (.acons v1 tl) =>
      '[' :: (nlIndent (d + 1) ++ renderVal (d + 1) v1 ++
        renderArrTail (d + 1) tl ++ nlIndent d ++ [']'])
  | .jobj .onil => ['\x7b', '\x7d']
  | .jobj (.ocons k v1 tl) =>
      '\x7b' :: (nlIndent (d + 1) ++
        (renderString k ++ ':' :: ' ' :: renderVal (d + 1) v1) ++
        renderObjTail (d + 1) tl ++ nlIndent d ++ ['\x7d'])
  termination_by structural v
def renderArrTail (d : Nat) (xs : JArr) : List Char :=
  match xs with
  | .anil => []
  | .acons v tl => ',' :: (nlIndent d ++ renderVal d v ++ renderArrTail d tl)
  termination_by structural xs
def renderObjTail (d : Nat) (xs : JObj) : List Char :=
  match xs with
  | .onil => []
  | .ocons k v tl =>
      ',' :: (nlIndent d ++ (renderString k ++ ':' :: ' ' :: renderVal d v) ++
        renderObjTail d tl)
  termination_by structural xs
end


/-- JSON insignificant whitespace, as accepted by Python's parser. -/
def isWs (c : Char) : Bool :=
  c = ' ' || c = '\t' || c = '\n' || c = '\r'

/-- Skip insignificant whitespace. -/
def skipWs (s : List Char) : List Char := s.dropWhile isWs

/-- Value of one hexadecimal digit character. -/
def hexVal (c : Char) : Option Nat :=
  if '0' ≤ c ∧ c ≤ '9' then some (c.toNat - 48)
  else if 'a' ≤ c ∧ c ≤ 'f' then some (c.toNat - 87)
  else if 'A' ≤ c ∧ c ≤ 'F' then some (c.toNat - 55)
  else none

/-- Parser for the body of a JSON string (after the opening quote), up to
and including the closing quote; returns the decoded content and the rest
of the input. -/
def parseStringBody : List Char → Option (List Char × List Char)
  | [] => none
  | c :: rest =>
      if c = '"' then some ([], rest)
      else if c = '\\' then
        match rest with
        | [] => none
        | e :: rest2 =>
            if e = '"' then
              (parseStringBody rest2).map (fun p => ('"' :: p.1, p.2))
            else if e = '\\' then
              (parseStringBody rest2).map (fun p => ('\\' :: p.1, p.2))
            else if e = '/' then
              (parseStringBody rest2).map (fun p => ('/' :: p.1, p.2))
            else if e = 'n' then
              (parseStringBody rest2).map (fun p => ('\n' :: p.1, p.2))
            else if e = 't' then
              (parseStringBody rest2).map (fun p => ('\t' :: p.1, p.2))
            else if e = 'r' then
              (parseStringBody rest2).map (fun p => ('\r' :: p.1, p.2))
            else if e = 'b' then
              (parseStringBody rest2).map (fun p => ('\x08' :: p.1, p.2))
            else if e = 'f' then
              (parseStringBody rest2).map (fun p => ('\x0c' :: p.1, p.2))
            else if e = 'u' then
              match rest2 with
              | a :: b :: c2 :: d2 :: rest3 =>
                  match hexVal a, hexVal b, hexVal c2, hexVal d2 with
                  | some ha, some hb, some hc, some hd =>
                      (parseStringBody rest3).map (fun p =>
                        (Char.ofNat (((ha * 16 + hb) * 16 + hc) * 16 + hd) :: p.1, p.2))
                  | _, _, _, _ => none
              | _ => none
            else none
      else (parseStringBody rest).map (fun p => (c :: p.1, p.2))

/-- Decimal digit test. -/
def isDigitCh (c : Char) : Bool := 48 ≤ c.toNat && c.toNat ≤ 57

/-- Greedily take the leading run of decimal digits. -/
def takeDigits : List Char → List Char × List Char
  | [] => ([], [])
  | c :: rest =>
      if isDigitCh c then
        let p := takeDigits rest
        (c :: p.1, p.2)
      else ([], c :: rest)

/-- Numeric value of a big-endian list of digit characters. -/
def digitsVal (ds : List Char) : Nat :=
  Nat.ofDigits 10 (ds.reverse.map (fun c => c.toNat - 48))

/-- Parser for an integer literal (the only number shape the scripts
write). -/
def parseNumber : List Char → Option (JVal × List Char)
  | [] => none
  | c :: rest =>
      if c = '-' then
        let p := takeDigits rest
        if p.1.isEmpty then none else some (.jint (-(digitsVal p.1 : Int)), p.2)
      else
        let p := takeDigits (c :: rest)
        if p.1.isEmpty then none else some (.jint (digitsVal p.1), p.2)

/-- A list that does not begin with a decimal digit: appended after a
rendered number it cannot extend the digit run the parser consumes. -/
def headNotDigit : List Char → Prop
  | [] => True
  | c :: _ => isDigitCh c = false

/-! Recursive-descent JSON parser (fuel-indexed for termination), following
Python's `json.loads` on the grammar fragment the scripts produce: skip
whitespace, dispatch on the first character, parse array elements and
object entries separated by commas. -/
mutual
def parseVal : Nat → List Char → Option (JVal × List Char)
  | 0, _ => none
  | fuel + 1, s =>
      match skipWs s with
      | [] => none
      | c :: rest =>
          if c = 'n' then
            match rest with
            | 'u' :: 'l' :: 'l' :: r => some (.jnull, r)
            | _ => none
          else if c = 't' then
            match rest with
            | 'r' :: 'u' :: 'e' :: r => some (.jbool true, r)
            | _ => none
          else if c = 'f' then
            match rest with
            | 'a' :: 'l' :: 's' :: 'e' :: r => some (.jbool false, r)
            | _ => none
          else if c = '"' then
            (parseStringBody rest).map (fun p => (.jstr p.1, p.2))
          else if c = '[' then
            match skipWs rest with
            | [] => none
            | c2 :: r2 =>
                if c2 = ']' then some (.jarr .anil, r2)
                else
                  match parseVal fuel (c2 :: r2) with
                  | none => none
                  | some (v, r3) =>
                      match parseArrTail fuel r3 with
                      | none => none
                      | some (tl, r4) => some (.jarr (.acons v tl), r4)
          else if c = '\x7b' then
            match skipWs rest with
            | [] => none
            | c2 :: r2 =>
                if c2 = '\x7d' then some (.jobj .onil, r2)
                else if c2 = '"' then
                  match parseStringBody r2 with
                  | none => none
                  | some (k, r3) =>
                      match skipWs r3 with
                      | [] => none
                      | c3 :: r4 =>
                          if c3 = ':' then
                            match parseVal fuel r4 with
                            | none => none
                            | some (v, r5) =>
                                match parseObjTail fuel r5 with
                                | none => none
                                | some (tl, r6) => some (.jobj (.ocons k v tl), r6)
                          else none
                else none
          else parseNumber (c :: rest)
def parseArrTail : Nat → List Char → Option (JArr × List Char)
  | 0, _ => none
  | fuel + 1, s =>
      match skipWs s with
      | [] => none
      | c :: rest =>
          if c = ']' then some (.anil, rest)
          else if c = ',' then
            match parseVal fuel rest with
            | none => none
            | some (v, r1) =>
                match parseArrTail fuel r1 with
                | none => none
                | some (tl, r2) => some (.acons v tl, r2)
          else none
def parseObjTail : Nat → List Char → Option (JObj × List Char)
  | 0, _ => none
  | fuel + 1, s =>
      match skipWs s with
      | [] => none
      | c :: rest =>
          if c = '\x7d' then some (.onil, rest)
          else if c = ',' then
            match skipWs rest with
            | [] => none
            | c2 :: r2 =>
                if c2 = '"' then
                  match parseStringBody r2 with
                  | none => none
                  | some (k, r3) =>
                      match skipWs r3 with
                      | [] => none
                      | c3 :: r4 =>
                          if c3 = ':' then
                            match parseVal fuel r4 with
                            | none => none
                            | some (v, r5) =>
                                match parseObjTail fuel r5 with
                                | none => none
                                | some (tl, r6) => some (.ocons k v tl, r6)
                          else none
                else none
          else none
end

/-- Serialization entry point: the exact character stream `json.dump(value,
f, indent=2)` writes to the file. -/
def dumps (v : JVal) : List Char := renderVal 0 v

/-- Deserialization entry point, as `json.load`: parse one value and accept
only trailing whitespace. -/
def loads (s : List Char) : Option JVal :=
  match parseVal (s.length + 1) s with
  | some (v, rest) => if (skipWs rest).isEmpty then some v else none
  | none => none

/-- List-to-spine conversions for building concrete JSON trees. -/
def jarrOfList : List JVal → JArr
  | [] => .anil
  | v :: tl => .acons v (jarrOfList tl)

def jobjOfList : List (List Char × JVal) → JObj
  | [] => .onil
  | e :: tl => .ocons e.1 e.2 (jobjOfList tl)

end PyJson

namespace KalshiAgent

open PyJson

/-- JSON form of one Python scalar stored in a record. -/
def PVal.toJson : PVal → JVal
  | .pstr s => .jstr s.data
  | .pint n => .jint n
  | .pbool b => .jbool b
  | .pnull => .jnull

/-- JSON object written for one processed record, keys in insertion order. -/
def recordJson (r : Record) : JVal :=
  .jobj (jobjOfList
    [("ticker".data, r.ticker.toJson),
     ("title".data, r.title.toJson),
     ("category".data, r.category.toJson),
     ("status".data, r.status.toJson),
     ("last_price".data, r.last_price.toJson),
     ("volume".data, r.volume.toJson),
     ("collection_timestamp".data, r.collection_timestamp.toJson)])

/-- The JSON value `save_reports` serializes to
`kalshi_collected_data.json`: the data store as an array of records. -/
def kalshiDataJson (store : List Record) : JVal :=
  .jarr (jarrOfList (store.map recordJson))

end KalshiAgent

namespace CatFacts

open PyJson

/-- The JSON value `save_facts_to_json` serializes: a one-key object
holding the array of collected facts. -/
def catFactsJson (facts : List String) : JVal :=
  .jobj (jobjOfList
    [("facts".data, .jarr (jarrOfList (facts.map (fun f => JVal.jstr f.data))))])

end CatFacts

namespace Holidays

open PyJson

/-- The `statistics` sub-object of the holiday summary: empty when the
country map is empty, otherwise the first-maximal and first-minimal
entries. -/
def holidayStats (cd : List (String × Nat)) : JVal :=
  match maxByCount cd, minByCount cd with
  | some mx, some mn =>
      .jobj (jobjOfList
        [("most_holidays".data, .jobj (jobjOfList
            [("country".data, .jstr mx.1.data),
             ("count".data, .jint mx.2)])),
         ("least_holidays".data, .jobj (jobjOfList
            [("country".data, .jstr mn.1.data),
             ("count".data, .jint mn.2)]))])
  | _, _ => .jobj .onil

/-- The JSON value `create_holiday_summary` serializes to
`holidays_summary.json`. -/
def holidaySummaryJson (cd : List (String × Nat)) : JVal :=
  .jobj (jobjOfList
    [("holiday_summary".data, .jobj (jobjOfList
        [("countries".data,
          .jobj (jobjOfList (cd.map (fun p => (p.1.data, JVal.jint p.2))))),
         ("statistics".data, holidayStats cd)]))])

end Holidays

section Helpers

open KalshiAgent

/-- Frame lemma: `adjust_strategy` touches only the delay multiplier. -/
theorem adjustStrategy_frame (st : AgentState) :
    (adjustStrategy st).config = st.config ∧
    (adjustStrategy st).data_store = st.data_store ∧
    (adjustStrategy st).collection_stats = st.collection_stats := by
  unfold adjustStrategy
  dsimp only
  split
  · simp
  · split <;> simp

/-- When `adjust_strategy` runs under a success rate below 0.8, the delay
multiplier is either unchanged or doubled: the 0.8-shrinking branch needs a
success rate above 0.9. -/
theorem adjustStrategy_delay_of_lt (st : AgentState)
    (h : getSuccessRate st.collection_stats < 4/5) :
    (adjustStrategy st).delay_multiplier = st.delay_multiplier ∨
    (adjustStrategy st).delay_multiplier = st.delay_multiplier * 2 := by
  unfold adjustStrategy
  dsimp only
  split
  · right; simp
  · split
    · exfalso
      rename_i h2
      have h45 : (4 : ℚ)/5 ≤ 9/10 := by norm_num
      linarith
    · left; rfl

/-- The delay multiplier after one `collect_batch` step is unchanged or
doubled, never shrunk. -/
theorem collectBatch_delay (st : AgentState) (o : ApiOutcome) :
    (collectBatch st o).1.delay_multiplier = st.delay_multiplier ∨
    (collectBatch st o).1.delay_multiplier = st.delay_multiplier * 2 := by
  unfold collectBatch
  by_cases h : getSuccessRate st.collection_stats < 4/5
  · simpa [h] using adjustStrategy_delay_of_lt st h
  · simp [h]

/-- `collect_batch` does not change the data store. -/
theorem collectBatch_store (st : AgentState) (o : ApiOutcome) :
    (collectBatch st o).1.data_store = st.data_store := by
  unfold collectBatch
  by_cases h : getSuccessRate st.collection_stats < 4/5 <;>
    simp [h, (adjustStrategy_frame st).2.1]

/-- `process_and_store` does not change the delay multiplier. -/
theorem processAndStore_delay (st : AgentState) (d : RawMarket) (ts : String) :
    (processAndStore st d ts).delay_multiplier = st.delay_multiplier := by
  unfold processAndStore
  by_cases h : validateData (processData d ts) <;> simp [h]

/-- `runStep` changes the delay multiplier exactly as `collect_batch` does. -/
theorem runStep_delay (st : AgentState) (o : ApiOutcome) (ts : String) :
    (runStep st o ts).delay_multiplier = (collectBatch st o).1.delay_multiplier := by
  unfold runStep
  cases h : (collectBatch st o).2 <;> simp [h, processAndStore_delay]

/-- Unfolding of one `runAll` step. -/
theorem runAll_cons (st : AgentState) (p : ApiOutcome × String)
    (rest : List (ApiOutcome × String)) :
    runAll st (p :: rest) = runAll (runStep st p.1 p.2) rest := rfl

/-- The invariant `1 ≤ delay_multiplier` is preserved by the main loop. -/
theorem runAll_delay_ge (steps : List (ApiOutcome × String)) :
    ∀ st : AgentState, 1 ≤ st.delay_multiplier →
      1 ≤ (runAll st steps).delay_multiplier := by
  induction steps with
  | nil => intro st h; exact h
  | cons p rest ih =>
      intro st h
      rw [runAll_cons]
      apply ih
      rw [runStep_delay]
      rcases collectBatch_delay st p.1 with hc | hc <;> rw [hc] <;> linarith

end Helpers

section MoreHelpers

open KalshiAgent CatFacts

/-- `collect_batch` updates the statistics exactly as `make_api_request`
applied to the unchanged statistics, and returns its result. -/
theorem collectBatch_stats (st : AgentState) (o : ApiOutcome) :
    (collectBatch st o).1.collection_stats = (makeApiRequest st.collection_stats o).1 ∧
    (collectBatch st o).2 = (makeApiRequest st.collection_stats o).2 := by
  unfold collectBatch
  by_cases h : getSuccessRate st.collection_stats < 4/5 <;>
    simp [h, (adjustStrategy_frame st).2.2]

/-- Every record `run_step` appends to the data store passes `validate_data`. -/
theorem runStep_store_valid (st : AgentState) (o : ApiOutcome) (ts : String)
    (h : ∀ r ∈ st.data_store, validateData r = true) :
    ∀ r ∈ (runStep st o ts).data_store, validateData r = true := by
  unfold runStep
  dsimp only
  cases hc : (collectBatch st o).2 with
  | none =>
      simp only [hc]
      rw [collectBatch_store]
      exact h
  | some d =>
      simp only [hc]
      unfold processAndStore
      cases hv : validateData (processData d ts) with
      | false =>
          simp only [hv, Bool.false_eq_true, if_false]
          rw [collectBatch_store]
          exact h
      | true =>
          simp only [hv, if_true]
          intro r hr
          rw [collectBatch_store] at hr
          rcases List.mem_append.mp hr with hr | hr
          · exact h r hr
          · rw [List.mem_singleton.mp hr]; exact hv

/-- One `runStep` with an outcome other than a 200 response with an
unparseable body preserves `total = successful + failed`. -/
theorem runStep_counts (st : AgentState) (o : ApiOutcome) (ts : String)
    (ho : o ≠ ApiOutcome.okBadBody)
    (h : st.collection_stats.total_requests =
      st.collection_stats.successful_requests + st.collection_stats.failed_requests) :
    (runStep st o ts).collection_stats.total_requests =
      (runStep st o ts).collection_stats.successful_requests +
        (runStep st o ts).collection_stats.failed_requests := by
  have hst : (runStep st o ts).collection_stats = (makeApiRequest st.collection_stats o).1 := by
    unfold runStep
    dsimp only
    cases hc : (collectBatch st o).2 with
    | none =>
        simp only [hc]
        exact (collectBatch_stats st o).1
    | some d =>
        simp only [hc]
        unfold processAndStore
        cases hv : validateData (processData d ts) <;>
          simp only [hv, Bool.false_eq_true, if_true, if_false] <;>
          exact (collectBatch_stats st o).1
  rw [hst]
  cases o with
  | ok markets => simp [makeApiRequest]; omega
  | okBadBody => exact absurd rfl ho
  | httpError => simp [makeApiRequest]; omega
  | requestError => simp [makeApiRequest]; omega

/-- The data-store validity invariant holds along every run. -/
theorem runAll_store_valid (steps : List (ApiOutcome × String)) :
    ∀ st : AgentState, (∀ r ∈ st.data_store, validateData r = true) →
      ∀ r ∈ (runAll st steps).data_store, validateData r = true := by
  induction steps with
  | nil => intro st h; exact h
  | cons p rest ih =>
      intro st h
      rw [runAll_cons]
      exact ih _ (runStep_store_valid st p.1 p.2 h)

/-- The counter identity holds along every run without unparseable 200
responses. -/
theorem runAll_counts (steps : List (ApiOutcome × String)) :
    ∀ st : AgentState, (∀ p ∈ steps, p.1 ≠ ApiOutcome.okBadBody) →
      st.collection_stats.total_requests =
        st.collection_stats.successful_requests + st.collection_stats.failed_requests →
      (runAll st steps).collection_stats.total_requests =
        (runAll st steps).collection_stats.successful_requests +
          (runAll st steps).collection_stats.failed_requests := by
  induction steps with
  | nil => intro st _ h; exact h
  | cons p rest ih =>
      intro st hno h
      rw [runAll_cons]
      refine ih _ (fun q hq => hno q (List.mem_cons_of_mem p hq)) ?_
      exact runStep_counts st p.1 p.2 (hno p (List.mem_cons_self p rest)) h

/-- A `raised` outcome anywhere in the planned requests of `get_cat_facts`
aborts the loop: with `k` exception-free outcomes before it, exactly `k + 1`
requests are attempted and the facts of the first `k` outcomes are kept. -/
theorem factsLoop_abort (pre post : List FactOutcome)
    (h : FactOutcome.raised ∉ pre) :
    factsLoop (pre ++ FactOutcome.raised :: post) =
      ((factsLoop pre).1, pre.length + 1) := by
  induction pre with
  | nil => rfl
  | cons o rest ih =>
      have hmem : FactOutcome.raised ∉ rest := fun hr => h (List.mem_cons_of_mem o hr)
      have hne : o ≠ FactOutcome.raised := fun he => h (he ▸ List.mem_cons_self o rest)
      cases o with
      | raised => exact absurd rfl hne
      | ok fact =>
          simp only [List.cons_append, factsLoop, List.append_eq, ih hmem,
            List.length_cons]
      | httpErr =>
          simp only [List.cons_append, factsLoop, List.append_eq, ih hmem,
            List.length_cons]

/-- Without a raised exception, the loop of `get_cat_facts` attempts every
planned request. -/
theorem factsLoop_attempts (outcomes : List FactOutcome)
    (h : FactOutcome.raised ∉ outcomes) :
    (factsLoop outcomes).2 = outcomes.length := by
  induction outcomes with
  | nil => rfl
  | cons o rest ih =>
      have hmem : FactOutcome.raised ∉ rest := fun hr => h (List.mem_cons_of_mem o hr)
      have hne : o ≠ FactOutcome.raised := fun he => h (he ▸ List.mem_cons_self o rest)
      cases o with
      | raised => exact absurd rfl hne
      | ok fact => simp only [factsLoop, ih hmem, List.length_cons]
      | httpErr => simp only [factsLoop, ih hmem, List.length_cons]

end MoreHelpers

section JsonLemmas

open PyJson

/-- Whitespace skipping stops at a non-whitespace head. -/
theorem skipWs_cons_of_not_ws (c : Char) (s : List Char) (h : isWs c = false) :
    skipWs (c :: s) = c :: s := by
  simp [skipWs, List.dropWhile_cons, h]

/-- Whitespace skipping consumes an all-whitespace prefix. -/
theorem skipWs_append_of_ws (ws s : List Char) (h : ∀ c ∈ ws, isWs c = true) :
    skipWs (ws ++ s) = skipWs s := by
  induction ws with
  | nil => rfl
  | cons c tl ih =>
      have hc : isWs c = true := h c (List.mem_cons_self c tl)
      simp only [List.cons_append, skipWs, List.dropWhile_cons, hc, if_true]
      exact ih (fun c2 h2 => h c2 (List.mem_cons_of_mem c h2))

/-- Every character of an indentation separator is whitespace. -/
theorem nlIndent_ws (d : Nat) : ∀ c ∈ nlIndent d, isWs c = true := by
  intro c hc
  rcases List.mem_cons.mp hc with h | h
  · subst h; rfl
  · rw [List.eq_of_mem_replicate h]; rfl

/-- Whitespace characters are not digits. -/
theorem isWs_not_digit (c : Char) (h : isWs c = true) : isDigitCh c = false := by
  simp only [isWs, Bool.or_eq_true, decide_eq_true_eq] at h
  rcases h with ((h | h) | h) | h <;> subst h <;> rfl

/-- The value parser ignores leading whitespace. -/
theorem parseVal_ws (fuel : Nat) (ws s : List Char) (h : ∀ c ∈ ws, isWs c = true) :
    parseVal fuel (ws ++ s) = parseVal fuel s := by
  cases fuel with
  | zero => rfl
  | succ f => simp only [parseVal, skipWs_append_of_ws ws s h]

/-- Four-bit hexadecimal digits round-trip. -/
theorem hexVal_hexDigitChar : ∀ n < 16, hexVal (hexDigitChar n) = some n := by
  decide

/-- The string parser decodes a `\u00XX`-style escape. -/
theorem parseStringBody_unicode (a b : Char) (x y : Nat) (l : List Char)
    (ha : hexVal a = some x) (hb : hexVal b = some y) :
    parseStringBody ('\\' :: 'u' :: '0' :: '0' :: a :: b :: l) =
      (parseStringBody l).map (fun p => (Char.ofNat (x * 16 + y) :: p.1, p.2)) := by
  rw [parseStringBody.eq_def]
  dsimp only
  rw [if_neg (by decide : ¬('\\' : Char) = '"'),
    if_pos (rfl : ('\\' : Char) = '\\')]
  rw [if_neg (by decide : ¬('u' : Char) = '"'),
    if_neg (by decide : ¬('u' : Char) = '\\'),
    if_neg (by decide : ¬('u' : Char) = '/'),
    if_neg (by decide : ¬('u' : Char) = 'n'),
    if_neg (by decide : ¬('u' : Char) = 't'),
    if_neg (by decide : ¬('u' : Char) = 'r'),
    if_neg (by decide : ¬('u' : Char) = 'b'),
    if_neg (by decide : ¬('u' : Char) = 'f'),
    if_pos (rfl : ('u' : Char) = 'u')]
  rw [show hexVal '0' = some 0 from rfl, ha, hb]
  dsimp only
  norm_num

/-- The string parser undoes the escaping of one character, whatever
follows. -/
theorem parseStringBody_escape (c : Char) (l : List Char) :
    parseStringBody (escapeChar c ++ l) =
      (parseStringBody l).map (fun p => (c :: p.1, p.2)) := by
  by_cases h1 : c = '"'
  · subst h1
    rw [show escapeChar '"' ++ l = '\\' :: '"' :: l from rfl,
      parseStringBody.eq_def]
    rfl
  by_cases h2 : c = '\\'
  · subst h2
    rw [show escapeChar '\\' ++ l = '\\' :: '\\' :: l from rfl,
      parseStringBody.eq_def]
    rfl
  by_cases h3 : c = '\n'
  · subst h3
    rw [show escapeChar '\n' ++ l = '\\' :: 'n' :: l from rfl,
      parseStringBody.eq_def]
    rfl
  by_cases h4 : c = '\t'
  · subst h4
    rw [show escapeChar '\t' ++ l = '\\' :: 't' :: l from rfl,
      parseStringBody.eq_def]
    rfl
  by_cases h5 : c = '\r'
  · subst h5
    rw [show escapeChar '\r' ++ l = '\\' :: 'r' :: l from rfl,
      parseStringBody.eq_def]
    rfl
  by_cases h6 : c = '\x08'
  · subst h6
    rw [show escapeChar '\x08' ++ l = '\\' :: 'b' :: l from rfl,
      parseStringBody.eq_def]
    rfl
  by_cases h7 : c = '\x0c'
  · subst h7
    rw [show escapeChar '\x0c' ++ l = '\\' :: 'f' :: l from rfl,
      parseStringBody.eq_def]
    rfl
  by_cases h8 : c.toNat < 32
  · have hesc : escapeChar c =
        '\\' :: 'u' :: '0' :: '0' ::
          hexDigitChar (c.toNat / 16) :: [hexDigitChar (c.toNat % 16)] := by
      unfold escapeChar
      rw [if_neg h1, if_neg h2, if_neg h3, if_neg h4, if_neg h5, if_neg h6,
        if_neg h7, if_pos h8]
    rw [hesc]
    show parseStringBody ('\\' :: 'u' :: '0' :: '0' ::
        hexDigitChar (c.toNat / 16) :: hexDigitChar (c.toNat % 16) :: l) = _
    rw [parseStringBody_unicode _ _ _ _ l
        (hexVal_hexDigitChar (c.toNat / 16) (by omega))
        (hexVal_hexDigitChar (c.toNat % 16) (by omega)),
      show c.toNat / 16 * 16 + c.toNat % 16 = c.toNat by omega,
      Char.ofNat_toNat]
  · have hesc : escapeChar c = [c] := by
      unfold escapeChar
      rw [if_neg h1, if_neg h2, if_neg h3, if_neg h4, if_neg h5, if_neg h6,
        if_neg h7, if_neg h8]
    rw [hesc]
    show parseStringBody (c :: l) = _
    rw [parseStringBody.eq_def]
    dsimp only
    rw [if_neg h1, if_neg h2]

/-- The string parser undoes the escaping of a whole string. -/
theorem parseStringBody_flatMap (s rest : List Char) :
    parseStringBody (s.flatMap escapeChar ++ '"' :: rest) = some (s, rest) := by
  induction s with
  | nil =>
      show parseStringBody ('"' :: rest) = some ([], rest)
      rw [parseStringBody.eq_def]
      rfl
  | cons c tl ih =>
      rw [show (c :: tl).flatMap escapeChar = escapeChar c ++ tl.flatMap escapeChar
          from rfl,
        List.append_assoc, parseStringBody_escape, ih]
      rfl

/-- Digit characters are digits. -/
theorem isDigitCh_digitChar : ∀ d < 10, isDigitCh (digitChar d) = true := by
  decide

/-- Decoding a digit character recovers the digit. -/
theorem digitChar_val : ∀ d < 10, (digitChar d).toNat - 48 = d := by
  decide

/-- A digit character is none of the parser's dispatch characters. -/
theorem digitChar_not_special : ∀ d < 10,
    isWs (digitChar d) = false ∧ digitChar d ≠ 'n' ∧ digitChar d ≠ 't' ∧
    digitChar d ≠ 'f' ∧ digitChar d ≠ '"' ∧ digitChar d ≠ '[' ∧
    digitChar d ≠ '\x7b' ∧ digitChar d ≠ '-' ∧ digitChar d ≠ ']' ∧
    digitChar d ≠ '\x7d' ∧ digitChar d ≠ ',' := by
  decide

/-- The digit accumulator agrees with `Nat.digits`. -/
theorem renderNatAux_digits :
    ∀ (fuel n : Nat) (acc : List Char), n ≤ fuel →
      renderNatAux fuel n acc = (Nat.digits 10 n).reverse.map digitChar ++ acc := by
  intro fuel
  induction fuel with
  | zero =>
      intro n acc h
      interval_cases n
      simp [renderNatAux]
  | succ f ih =>
      intro n acc h
      by_cases h0 : n = 0
      · subst h0
        simp [renderNatAux]
      · rw [show renderNatAux (f + 1) n acc =
            renderNatAux f (n / 10) (digitChar (n % 10) :: acc) from by
          rw [renderNatAux]; rw [if_neg h0]]
        rw [ih (n / 10) _ (by omega)]
        rw [Nat.digits_def' (by norm_num : 1 < 10) (Nat.pos_of_ne_zero h0)]
        simp

/-- Characterization of `renderNat` via `Nat.digits`. -/
theorem renderNat_eq_digits (n : Nat) (h : n ≠ 0) :
    renderNat n = (Nat.digits 10 n).reverse.map digitChar := by
  unfold renderNat
  rw [if_neg h, renderNatAux_digits n n [] le_rfl, List.append_nil]

/-- Every character of a rendered natural number is a digit. -/
theorem renderNat_digits_only (n : Nat) :
    ∀ c ∈ renderNat n, isDigitCh c = true := by
  intro c hc
  by_cases h : n = 0
  · subst h
    have hc0 : c = '0' := by simpa [renderNat] using hc
    subst hc0
    rfl
  · rw [renderNat_eq_digits n h] at hc
    rcases List.mem_map.mp hc with ⟨d, hd, hdc⟩
    have hd10 : d < 10 :=
      Nat.digits_lt_base (by norm_num) (List.mem_reverse.mp hd)
    rw [← hdc]
    exact isDigitCh_digitChar d hd10

/-- A rendered natural number is non-empty. -/
theorem renderNat_ne_nil (n : Nat) : renderNat n ≠ [] := by
  by_cases h : n = 0
  · subst h; simp [renderNat]
  · rw [renderNat_eq_digits n h]
    simp [h, Nat.digits_ne_nil_iff_ne_zero]

/-- A rendered natural number is not the empty list (boolean form). -/
theorem renderNat_isEmpty (n : Nat) : (renderNat n).isEmpty = false := by
  cases h : renderNat n with
  | nil => exact absurd h (renderNat_ne_nil n)
  | cons c cs => rfl

/-- `takeDigits` splits a digit run from a non-digit continuation. -/
theorem takeDigits_append (ds rest : List Char)
    (hds : ∀ c ∈ ds, isDigitCh c = true) (hr : headNotDigit rest) :
    takeDigits (ds ++ rest) = (ds, rest) := by
  induction ds with
  | nil =>
      cases rest with
      | nil => rfl
      | cons c tl =>
          have hcf : isDigitCh c = false := hr
          simp [takeDigits, hcf]
  | cons c tl ih =>
      have hc : isDigitCh c = true := hds c (List.mem_cons_self c tl)
      simp only [List.cons_append, takeDigits, hc, if_true, List.append_eq]
      rw [ih (fun c2 h2 => hds c2 (List.mem_cons_of_mem c h2))]

/-- Decoding a rendered natural number recovers it. -/
theorem digitsVal_renderNat (n : Nat) : digitsVal (renderNat n) = n := by
  by_cases h : n = 0
  · subst h; rfl
  · rw [renderNat_eq_digits n h]
    unfold digitsVal
    rw [List.map_reverse, List.map_map, List.map_reverse, List.reverse_reverse]
    have hmap : List.map ((fun c => c.toNat - 48) ∘ digitChar) (Nat.digits 10 n) =
        List.map id (Nat.digits 10 n) :=
      List.map_congr_left (fun d hd =>
        digitChar_val d (Nat.digits_lt_base (by norm_num) hd))
    rw [hmap, List.map_id]
    exact Nat.ofDigits_digits 10 n

/-- The number parser undoes the rendering of a natural number. -/
theorem parseNumber_renderNat (n : Nat) (rest : List Char)
    (hr : headNotDigit rest) :
    parseNumber (renderNat n ++ rest) = some (.jint n, rest) := by
  obtain ⟨c, cs, hcs⟩ : ∃ c cs, renderNat n = c :: cs := by
    cases h : renderNat n with
    | nil => exact absurd h (renderNat_ne_nil n)
    | cons c cs => exact ⟨c, cs, rfl⟩
  have hcdig : isDigitCh c = true :=
    renderNat_digits_only n c (by rw [hcs]; exact List.mem_cons_self c cs)
  have hcneg : c ≠ '-' := by
    intro he
    rw [he] at hcdig
    exact absurd hcdig (by decide)
  rw [hcs, List.cons_append, parseNumber.eq_def]
  dsimp only
  rw [if_neg hcneg,
    show c :: (cs ++ rest) = (c :: cs) ++ rest from rfl, ← hcs,
    takeDigits_append _ _ (renderNat_digits_only n) hr]
  dsimp only
  rw [if_neg (by rw [renderNat_isEmpty]; exact Bool.false_ne_true),
    digitsVal_renderNat]

/-- The number parser undoes the rendering of an integer. -/
theorem parseNumber_renderInt (n : Int) (rest : List Char)
    (hr : headNotDigit rest) :
    parseNumber (renderInt n ++ rest) = some (.jint n, rest) := by
  cases n with
  | ofNat m => exact parseNumber_renderNat m rest hr
  | negSucc m =>
      show parseNumber ('-' :: (renderNat (m + 1) ++ rest)) =
        some (.jint (Int.negSucc m), rest)
      rw [parseNumber.eq_def]
      dsimp only
      rw [if_pos rfl,
        takeDigits_append _ _ (renderNat_digits_only (m + 1)) hr]
      dsimp only
      rw [if_neg (by rw [renderNat_isEmpty]; exact Bool.false_ne_true),
        digitsVal_renderNat]
      norm_num [Int.negSucc_eq]

/-- The first character of any rendered value is not whitespace and not a
closing bracket. -/
theorem renderVal_head (d : Nat) (v : JVal) :
    ∃ c cs, renderVal d v = c :: cs ∧ isWs c = false ∧ c ≠ ']' ∧ c ≠ '\x7d' := by
  cases v with
  | jnull =>
      refine ⟨'n', _, rfl, ?_, ?_, ?_⟩ <;> decide
  | jbool b =>
      cases b with
      | true => refine ⟨'t', _, rfl, ?_, ?_, ?_⟩ <;> decide
      | false => refine ⟨'f', _, rfl, ?_, ?_, ?_⟩ <;> decide
  | jstr s =>
      refine ⟨'"', _, rfl, ?_, ?_, ?_⟩ <;> decide
  | jarr xs =>
      cases xs with
      | anil => refine ⟨'[', _, rfl, ?_, ?_, ?_⟩ <;> decide
      | acons v1 tl => refine ⟨'[', _, rfl, ?_, ?_, ?_⟩ <;> decide
  | jobj xs =>
      cases xs with
      | onil => refine ⟨'\x7b', _, rfl, ?_, ?_, ?_⟩ <;> decide
      | ocons k v1 tl => refine ⟨'\x7b', _, rfl, ?_, ?_, ?_⟩ <;> decide
  | jint n =>
      cases n with
      | negSucc m => refine ⟨'-', _, rfl, ?_, ?_, ?_⟩ <;> decide
      | ofNat m =>
          obtain ⟨c, cs, hcs⟩ : ∃ c cs, renderNat m = c :: cs := by
            cases h : renderNat m with
            | nil => exact absurd h (renderNat_ne_nil m)
            | cons c cs => exact ⟨c, cs, rfl⟩
          have hcdig : isDigitCh c = true :=
            renderNat_digits_only m c (by rw [hcs]; exact List.mem_cons_self c cs)
          refine ⟨c, cs, hcs, ?_, ?_, ?_⟩
          · cases hw : isWs c
            · rfl
            · exact absurd hcdig (by rw [isWs_not_digit c hw]; exact Bool.false_ne_true)
          · intro he; rw [he] at hcdig; exact absurd hcdig (by decide)
          · intro he; rw [he] at hcdig; exact absurd hcdig (by decide)

/-- Whitespace prefixed to a non-digit-headed list keeps it
non-digit-headed. -/
theorem headNotDigit_of_ws_append (ws l : List Char)
    (hws : ∀ c ∈ ws, isWs c = true) (hl : headNotDigit l) :
    headNotDigit (ws ++ l) := by
  cases ws with
  | nil => exact hl
  | cons c tl =>
      show isDigitCh c = false
      exact isWs_not_digit c (hws c (List.mem_cons_self c tl))

/-- A rendered array tail starts with a comma or continues with `l`. -/
theorem headNotDigit_arrTail (d : Nat) (tl : JArr) (l : List Char)
    (hl : headNotDigit l) : headNotDigit (renderArrTail d tl ++ l) := by
  cases tl with
  | anil => exact hl
  | acons v tl2 => exact (by decide : isDigitCh ',' = false)

/-- A rendered object tail starts with a comma or continues with `l`. -/
theorem headNotDigit_objTail (d : Nat) (tl : JObj) (l : List Char)
    (hl : headNotDigit l) : headNotDigit (renderObjTail d tl ++ l) := by
  cases tl with
  | onil => exact hl
  | ocons k v tl2 => exact (by decide : isDigitCh ',' = false)

/-- Unfolding of the value parser at a string opening quote. -/
theorem parseVal_cons_quote (fuel : Nat) (l : List Char) :
    parseVal (fuel + 1) ('"' :: l) =
      (parseStringBody l).map (fun p => (JVal.jstr p.1, p.2)) := by
  rw [parseVal, skipWs_cons_of_not_ws '"' l (by decide)]
  rfl

/-- Unfolding of the value parser at a non-dispatch character: it falls
through to the number parser. -/
theorem parseVal_cons_other (fuel : Nat) (c : Char) (l : List Char)
    (hws : isWs c = false) (h1 : c ≠ 'n') (h2 : c ≠ 't') (h3 : c ≠ 'f')
    (h4 : c ≠ '"') (h5 : c ≠ '[') (h6 : c ≠ '\x7b') :
    parseVal (fuel + 1) (c :: l) = parseNumber (c :: l) := by
  rw [parseVal, skipWs_cons_of_not_ws c l hws]
  dsimp only
  rw [if_neg h1, if_neg h2, if_neg h3, if_neg h4, if_neg h5, if_neg h6]

/-- Unfolding of the value parser at an array opening bracket. -/
theorem parseVal_cons_lbrack (fuel : Nat) (l : List Char) :
    parseVal (fuel + 1) ('[' :: l) =
      (match skipWs l with
       | [] => none
       | c2 :: r2 =>
           if c2 = ']' then some (JVal.jarr .anil, r2)
           else
             match parseVal fuel (c2 :: r2) with
             | none => none
             | some (v, r3) =>
                 match parseArrTail fuel r3 with
                 | none => none
                 | some (tl, r4) => some (JVal.jarr (JArr.acons v tl), r4)) := by
  rw [parseVal, skipWs_cons_of_not_ws '[' l (by decide)]
  rfl

/-- Unfolding of the value parser at an object opening brace. -/
theorem parseVal_cons_lbrace (fuel : Nat) (l : List Char) :
    parseVal (fuel + 1) ('\x7b' :: l) =
      (match skipWs l with
       | [] => none
       | c2 :: r2 =>
           if c2 = '\x7d' then some (JVal.jobj .onil, r2)
           else if c2 = '"' then
             match parseStringBody r2 with
             | none => none
             | some (k, r3) =>
                 match skipWs r3 with
                 | [] => none
                 | c3 :: r4 =>
                     if c3 = ':' then
                       match parseVal fuel r4 with
                       | none => none
                       | some (v, r5) =>
                           match parseObjTail fuel r5 with
                           | none => none
                           | some (tl, r6) => some (JVal.jobj (JObj.ocons k v tl), r6)
                     else none
           else none) := by
  rw [parseVal, skipWs_cons_of_not_ws '\x7b' l (by decide)]
  rfl

/-- Unfolding of the array-tail parser at a non-whitespace character. -/
theorem parseArrTail_cons (fuel : Nat) (c : Char) (l : List Char)
    (hws : isWs c = false) :
    parseArrTail (fuel + 1) (c :: l) =
      (if c = ']' then some (JArr.anil, l)
       else if c = ',' then
         match parseVal fuel l with
         | none => none
         | some (v, r1) =>
             match parseArrTail fuel r1 with
             | none => none
             | some (tl, r2) => some (JArr.acons v tl, r2)
       else none) := by
  rw [parseArrTail, skipWs_cons_of_not_ws c l hws]

/-- The array-tail parser ignores leading whitespace. -/
theorem parseArrTail_ws (fuel : Nat) (ws s : List Char)
    (h : ∀ c ∈ ws, isWs c = true) :
    parseArrTail fuel (ws ++ s) = parseArrTail fuel s := by
  cases fuel with
  | zero => rfl
  | succ f => simp only [parseArrTail, skipWs_append_of_ws ws s h]

/-- Unfolding of the object-tail parser at a non-whitespace character. -/
theorem parseObjTail_cons (fuel : Nat) (c : Char) (l : List Char)
    (hws : isWs c = false) :
    parseObjTail (fuel + 1) (c :: l) =
      (if c = '\x7d' then some (JObj.onil, l)
       else if c = ',' then
         match skipWs l with
         | [] => none
         | c2 :: r2 =>
             if c2 = '"' then
               match parseStringBody r2 with
               | none => none
               | some (k, r3) =>
                   match skipWs r3 with
                   | [] => none
                   | c3 :: r4 =>
                       if c3 = ':' then
                         match parseVal fuel r4 with
                         | none => none
                         | some (v, r5) =>
                             match parseObjTail fuel r5 with
                             | none => none
                             | some (tl, r6) => some (JObj.ocons k v tl, r6)
                       else none
             else none
       else none) := by
  rw [parseObjTail, skipWs_cons_of_not_ws c l hws]

/-- The object-tail parser ignores leading whitespace. -/
theorem parseObjTail_ws (fuel : Nat) (ws s : List Char)
    (h : ∀ c ∈ ws, isWs c = true) :
    parseObjTail fuel (ws ++ s) = parseObjTail fuel s := by
  cases fuel with
  | zero => rfl
  | succ f => simp only [parseObjTail, skipWs_append_of_ws ws s h]

/-- The digit characters of a rendered natural number. -/
theorem renderNat_chars (n : Nat) :
    ∀ c ∈ renderNat n, ∃ d, d < 10 ∧ c = digitChar d := by
  intro c hc
  by_cases h : n = 0
  · subst h
    have hc0 : c = '0' := by simpa [renderNat] using hc
    exact ⟨0, by norm_num, by rw [hc0]; decide⟩
  · rw [renderNat_eq_digits n h] at hc
    rcases List.mem_map.mp hc with ⟨d, hd, hdc⟩
    exact ⟨d, Nat.digits_lt_base (by norm_num) (List.mem_reverse.mp hd), hdc.symm⟩

/-- The value parser undoes the rendering of an integer. -/
theorem parseVal_renderInt (fuel : Nat) (n : Int) (rest : List Char)
    (hr : headNotDigit rest) :
    parseVal (fuel + 1) (renderInt n ++ rest) = some (JVal.jint n, rest) := by
  obtain ⟨c, cs, hcs, hkey⟩ : ∃ c cs, renderInt n = c :: cs ∧
      (isWs c = false ∧ c ≠ '\x7b' ∧ c ≠ '[' ∧ c ≠ '"' ∧ c ≠ 'f' ∧
        c ≠ 't' ∧ c ≠ 'n') := by
    cases n with
    | negSucc m =>
        refine ⟨'-', renderNat (m + 1), rfl, ?_, ?_, ?_, ?_, ?_, ?_, ?_⟩ <;> decide
    | ofNat m =>
        obtain ⟨c, cs, hcs⟩ : ∃ c cs, renderNat m = c :: cs := by
          cases h : renderNat m with
          | nil => exact absurd h (renderNat_ne_nil m)
          | cons c cs => exact ⟨c, cs, rfl⟩
        obtain ⟨dg, hdg, hcd⟩ :=
          renderNat_chars m c (by rw [hcs]; exact List.mem_cons_self c cs)
        obtain ⟨w1, w2, w3, w4, w5, w6, w7, _⟩ := digitChar_not_special dg hdg
        subst hcd
        exact ⟨digitChar dg, cs, hcs, w1, w7, w6, w5, w4, w3, w2⟩
  obtain ⟨w1, w7, w6, w5, w4, w3, w2⟩ := hkey
  rw [hcs, List.cons_append, parseVal_cons_other fuel c (cs ++ rest) w1 w2 w3 w4 w5 w6 w7,
    ← List.cons_append, ← hcs]
  exact parseNumber_renderInt n rest hr

/-- A closing bracket does not start with a digit. -/
theorem headNotDigit_rbrack (rest : List Char) : headNotDigit (']' :: rest) :=
  (by decide : isDigitCh ']' = false)

/-- A closing brace does not start with a digit. -/
theorem headNotDigit_rbrace (rest : List Char) : headNotDigit ('\x7d' :: rest) :=
  (by decide : isDigitCh '\x7d' = false)

/-- Parsing undoes rendering, with fuel bounding the node count: the three
mutually recursive statements for values, array tails and object tails,
proved together by induction on the fuel. -/
theorem parse_render (fuel : Nat) :
    (∀ (v : JVal) (d : Nat) (rest : List Char), sizeV v < fuel → headNotDigit rest →
      parseVal fuel (renderVal d v ++ rest) = some (v, rest)) ∧
    (∀ (tl : JArr) (d : Nat) (ws rest : List Char), sizeA tl < fuel →
      (∀ c ∈ ws, isWs c = true) →
      parseArrTail fuel (renderArrTail d tl ++ (ws ++ (']' :: rest))) =
        some (tl, rest)) ∧
    (∀ (tl : JObj) (d : Nat) (ws rest : List Char), sizeO tl < fuel →
      (∀ c ∈ ws, isWs c = true) →
      parseObjTail fuel (renderObjTail d tl ++ (ws ++ ('\x7d' :: rest))) =
        some (tl, rest)) := by
  induction fuel with
  | zero =>
      exact ⟨fun v d rest hs _ => absurd hs (Nat.not_lt_zero _),
        fun tl d ws rest hs _ => absurd hs (Nat.not_lt_zero _),
        fun tl d ws rest hs _ => absurd hs (Nat.not_lt_zero _)⟩
  | succ f ih =>
      obtain ⟨ihV, ihA, ihO⟩ := ih
      refine ⟨?_, ?_, ?_⟩
      · intro v d rest hs hr
        cases v with
        | jnull =>
            rw [renderVal.eq_def]
            dsimp only
            simp only [List.cons_append, List.nil_append]
            rw [parseVal, skipWs_cons_of_not_ws 'n' _ (by decide)]
            rfl
        | jbool b =>
            cases b with
            | true =>
                rw [renderVal.eq_def]
                dsimp only
                simp only [List.cons_append, List.nil_append]
                rw [parseVal, skipWs_cons_of_not_ws 't' _ (by decide)]
                rfl
            | false =>
                rw [renderVal.eq_def]
                dsimp only
                simp only [List.cons_append, List.nil_append]
                rw [parseVal, skipWs_cons_of_not_ws 'f' _ (by decide)]
                rfl
        | jint n =>
            rw [renderVal.eq_def]
            dsimp only
            exact parseVal_renderInt f n rest hr
        | jstr s =>
            rw [renderVal.eq_def]
            dsimp only
            simp only [renderString, List.cons_append]
            rw [parseVal_cons_quote, List.append_assoc,
              show (['"'] : List Char) ++ rest = '"' :: rest from rfl,
              parseStringBody_flatMap]
            rfl
        | jarr xs =>
            cases xs with
            | anil =>
                rw [renderVal.eq_def]
                dsimp only
                simp only [List.cons_append, List.nil_append]
                rw [parseVal, skipWs_cons_of_not_ws '[' _ (by decide)]
                rfl
            | acons v1 tl =>
                have hsize : sizeV (JVal.jarr (JArr.acons v1 tl)) =
                    sizeV v1 + sizeA tl + 2 := by simp [sizeV, sizeA]
                have hsv : sizeV v1 < f := by omega
                have hst : sizeA tl < f := by omega
                have hnd1 : headNotDigit (renderArrTail (d + 1) tl ++
                    (nlIndent d ++ (']' :: rest))) :=
                  headNotDigit_arrTail (d + 1) tl _
                    (headNotDigit_of_ws_append (nlIndent d) _ (nlIndent_ws d)
                      (headNotDigit_rbrack rest))
                rw [renderVal.eq_def]
                dsimp only
                simp only [List.cons_append, List.append_assoc,
                  List.singleton_append, List.nil_append]
                rw [parseVal_cons_lbrack,
                  skipWs_append_of_ws _ _ (nlIndent_ws (d + 1))]
                obtain ⟨c, cs, hcs, hnws, hne1, hne2⟩ := renderVal_head (d + 1) v1
                rw [hcs, List.cons_append, skipWs_cons_of_not_ws c _ hnws]
                dsimp only
                rw [if_neg hne1, ← List.cons_append, ← hcs,
                  ihV v1 (d + 1) _ hsv hnd1]
                dsimp only
                rw [ihA tl (d + 1) (nlIndent d) rest hst (nlIndent_ws d)]
        | jobj xs =>
            cases xs with
            | onil =>
                rw [renderVal.eq_def]
                dsimp only
                simp only [List.cons_append, List.nil_append]
                rw [parseVal, skipWs_cons_of_not_ws '\x7b' _ (by decide)]
                rfl
            | ocons k v1 tl =>
                have hsize : sizeV (JVal.jobj (JObj.ocons k v1 tl)) =
                    sizeV v1 + sizeO tl + 2 := by simp [sizeV, sizeO]
                have hsv : sizeV v1 < f := by omega
                have hst : sizeO tl < f := by omega
                have hnd1 : headNotDigit (renderObjTail (d + 1) tl ++
                    (nlIndent d ++ ('\x7d' :: rest))) :=
                  headNotDigit_objTail (d + 1) tl _
                    (headNotDigit_of_ws_append (nlIndent d) _ (nlIndent_ws d)
                      (headNotDigit_rbrace rest))
                rw [renderVal.eq_def]
                dsimp only
                simp only [renderString, List.cons_append, List.append_assoc,
                  List.singleton_append, List.nil_append]
                rw [parseVal_cons_lbrace,
                  skipWs_append_of_ws _ _ (nlIndent_ws (d + 1)),
                  skipWs_cons_of_not_ws '"' _ (by decide)]
                dsimp only
                rw [if_neg (by decide : ¬('"' : Char) = '\x7d'),
                  if_pos (rfl : ('"' : Char) = '"'),
                  parseStringBody_flatMap]
                dsimp only
                rw [skipWs_cons_of_not_ws ':' _ (by decide)]
                dsimp only
                rw [if_pos (rfl : (':' : Char) = ':')]
                rw [show (' ' :: (renderVal (d + 1) v1 ++
                    (renderObjTail (d + 1) tl ++ (nlIndent d ++ ('\x7d' :: rest))))) =
                    [' '] ++ (renderVal (d + 1) v1 ++
                    (renderObjTail (d + 1) tl ++ (nlIndent d ++ ('\x7d' :: rest))))
                    from rfl,
                  parseVal_ws f [' '] _ (by decide),
                  ihV v1 (d + 1) _ hsv hnd1]
                dsimp only
                rw [ihO tl (d + 1) (nlIndent d) rest hst (nlIndent_ws d)]
      · intro tl d ws rest hs hws
        cases tl with
        | anil =>
            rw [renderArrTail.eq_def]
            dsimp only
            rw [List.nil_append, parseArrTail_ws (f + 1) ws _ hws,
              parseArrTail_cons f ']' rest (by decide), if_pos rfl]
        | acons v tl2 =>
            have hsize : sizeA (JArr.acons v tl2) = sizeV v + sizeA tl2 + 1 := by
              simp [sizeA]
            have hsv : sizeV v < f := by omega
            have hst : sizeA tl2 < f := by omega
            have hnd1 : headNotDigit (renderArrTail d tl2 ++ (ws ++ (']' :: rest))) :=
              headNotDigit_arrTail d tl2 _
                (headNotDigit_of_ws_append ws _ hws (headNotDigit_rbrack rest))
            rw [renderArrTail.eq_def]
            dsimp only
            simp only [List.cons_append, List.append_assoc, List.singleton_append,
              List.nil_append]
            rw [parseArrTail_cons f ',' _ (by decide),
              if_neg (by decide : ¬(',' : Char) = ']'),
              if_pos (rfl : (',' : Char) = ','),
              parseVal_ws f (nlIndent d) _ (nlIndent_ws d),
              ihV v d _ hsv hnd1]
            dsimp only
            rw [ihA tl2 d ws rest hst hws]
      · intro tl d ws rest hs hws
        cases tl with
        | onil =>
            rw [renderObjTail.eq_def]
            dsimp only
            rw [List.nil_append, parseObjTail_ws (f + 1) ws _ hws,
              parseObjTail_cons f '\x7d' rest (by decide), if_pos rfl]
        | ocons k v tl2 =>
            have hsize : sizeO (JObj.ocons k v tl2) = sizeV v + sizeO tl2 + 1 := by
              simp [sizeO]
            have hsv : sizeV v < f := by omega
            have hst : sizeO tl2 < f := by omega
            have hnd1 : headNotDigit (renderObjTail d tl2 ++ (ws ++ ('\x7d' :: rest))) :=
              headNotDigit_objTail d tl2 _
                (headNotDigit_of_ws_append ws _ hws (headNotDigit_rbrace rest))
            rw [renderObjTail.eq_def]
            dsimp only
            simp only [renderString, List.cons_append, List.append_assoc,
              List.singleton_append, List.nil_append]
            rw [parseObjTail_cons f ',' _ (by decide),
              if_neg (by decide : ¬(',' : Char) = '\x7d'),
              if_pos (rfl : (',' : Char) = ','),
              skipWs_append_of_ws _ _ (nlIndent_ws d),
              skipWs_cons_of_not_ws '"' _ (by decide)]
            dsimp only
            rw [if_pos (rfl : ('"' : Char) = '"'), parseStringBody_flatMap]
            dsimp only
            rw [skipWs_cons_of_not_ws ':' _ (by decide)]
            dsimp only
            rw [if_pos (rfl : (':' : Char) = ':')]
            rw [show (' ' :: (renderVal d v ++
                (renderObjTail d tl2 ++ (ws ++ ('\x7d' :: rest))))) =
                [' '] ++ (renderVal d v ++
                (renderObjTail d tl2 ++ (ws ++ ('\x7d' :: rest)))) from rfl,
              parseVal_ws f [' '] _ (by decide),
              ihV v d _ hsv hnd1]
            dsimp only
            rw [ihO tl2 d ws rest hst hws]

/-! The node count of a value is at most its rendered length. -/
mutual
theorem lenVal (d : Nat) (v : JVal) : sizeV v ≤ (renderVal d v).length := by
  cases v with
  | jnull =>
      rw [renderVal.eq_def]
      norm_num [sizeV]
  | jbool b =>
      cases b <;> (rw [renderVal.eq_def]; norm_num [sizeV])
  | jint n =>
      have hne : renderInt n ≠ [] := by
        cases n with
        | ofNat m => exact renderNat_ne_nil m
        | negSucc m => simp [renderInt]
      have hlen : 0 < (renderInt n).length := List.length_pos.mpr hne
      rw [renderVal.eq_def]
      dsimp only
      simp only [sizeV]
      omega
  | jstr s =>
      rw [renderVal.eq_def]
      dsimp only
      simp [sizeV, renderString]
  | jarr xs =>
      cases xs with
      | anil =>
          rw [renderVal.eq_def]
          norm_num [sizeV, sizeA]
      | acons v1 tl =>
          have h1 := lenVal (d + 1) v1
          have h2 := lenArrTail (d + 1) tl
          rw [renderVal.eq_def]
          dsimp only
          simp only [sizeV, sizeA, List.length_cons, List.length_append,
            nlIndent, List.length_replicate]
          omega
  | jobj xs =>
      cases xs with
      | onil =>
          rw [renderVal.eq_def]
          norm_num [sizeV, sizeO]
      | ocons k v1 tl =>
          have h1 := lenVal (d + 1) v1
          have h2 := lenObjTail (d + 1) tl
          rw [renderVal.eq_def]
          dsimp only
          simp only [sizeV, sizeO, List.length_cons, List.length_append,
            nlIndent, List.length_replicate, renderString]
          omega
  termination_by structural v
theorem lenArrTail (d : Nat) (xs : JArr) : sizeA xs ≤ (renderArrTail d xs).length := by
  cases xs with
  | anil =>
      rw [renderArrTail.eq_def]
      norm_num [sizeA]
  | acons v tl =>
      have h1 := lenVal d v
      have h2 := lenArrTail d tl
      rw [renderArrTail.eq_def]
      dsimp only
      simp only [sizeA, List.length_cons, List.length_append, nlIndent,
        List.length_replicate]
      omega
  termination_by structural xs
theorem lenObjTail (d : Nat) (xs : JObj) : sizeO xs ≤ (renderObjTail d xs).length := by
  cases xs with
  | onil =>
      rw [renderObjTail.eq_def]
      norm_num [sizeO]
  | ocons k v tl =>
      have h1 := lenVal d v
      have h2 := lenObjTail d tl
      rw [renderObjTail.eq_def]
      dsimp only
      simp only [sizeO, List.length_cons, List.length_append, nlIndent,
        List.length_replicate, renderString]
      omega
  termination_by structural xs
end

/-- Parsing a dumped value recovers it exactly: `json.load` after
`json.dump(value, f, indent=2)` is the identity. -/
theorem loads_dumps (v : JVal) : loads (dumps v) = some v := by
  unfold loads dumps
  have h := (parse_render ((renderVal 0 v).length + 1)).1 v 0 []
    (by have := lenVal 0 v; omega) trivial
  rw [List.append_nil] at h
  rw [h]
  rfl

end JsonLemmas

section Claims

open KalshiAgent CatFacts

/-- C1: for every agent state, `adjust_strategy` doubles the delay multiplier
when the success rate is below 0.5, multiplies it by 0.8 (= 4/5) when the
success rate is above 0.9, otherwise leaves it unchanged; and no other part
of the agent state changes. -/
theorem C1_adjust_strategy_spec (st : AgentState) :
    (adjustStrategy st).delay_multiplier =
      (if getSuccessRate st.collection_stats < 1/2 then st.delay_multiplier * 2
       else if 9/10 < getSuccessRate st.collection_stats then
         st.delay_multiplier * (4/5)
       else st.delay_multiplier) ∧
    (adjustStrategy st).config = st.config ∧
    (adjustStrategy st).data_store = st.data_store ∧
    (adjustStrategy st).collection_stats = st.collection_stats := by
  refine ⟨?_, adjustStrategy_frame st⟩
  unfold adjustStrategy
  dsimp only
  split
  · rfl
  · split <;> rfl

/-- C3 as stated fails at the zero-request statistics: `get_success_rate`
returns 1.0 there, which is not the division successful/total (0/0, i.e. 0
under the rational division convention). -/
theorem C3_get_success_rate_cex :
    ¬ (getSuccessRate ⟨0, 0, 0⟩ = ((0 : Nat) : ℚ) / ((0 : Nat) : ℚ)) := by
  norm_num [getSuccessRate]

/-- C3 amended: `get_success_rate` returns successful_requests divided by
total_requests whenever total_requests is positive, and returns 1.0 in the
state where total_requests is 0. -/
theorem C3_get_success_rate_spec (stats : CollectionStats) :
    (0 < stats.total_requests →
      getSuccessRate stats =
        (stats.successful_requests : ℚ) / (stats.total_requests : ℚ)) ∧
    (stats.total_requests = 0 → getSuccessRate stats = 1) := by
  constructor
  · intro h; rw [getSuccessRate, if_pos h]
  · intro h; rw [getSuccessRate, if_neg (by omega)]

/-- Witness for C3: the amended statement applied at concrete statistics. -/
theorem C3_get_success_rate_witness :
    getSuccessRate ⟨4, 3, 1⟩ = ((3 : Nat) : ℚ) / ((4 : Nat) : ℚ) ∧
    getSuccessRate ⟨0, 0, 0⟩ = 1 :=
  ⟨(C3_get_success_rate_spec _).1 (by decide),
   (C3_get_success_rate_spec _).2 rfl⟩

/-- C4: on a non-empty data store, `assess_data_quality` returns the
arithmetic mean of the four heuristic scores — completeness, accuracy,
consistency and the constant timeliness 1.0 — i.e. their sum divided by 4. -/
theorem C4_assess_data_quality_mean (store : List Record) (h : store ≠ []) :
    assessDataQuality store =
      (checkCompleteness store + checkAccuracy store + checkConsistency store + 1) / 4 := by
  rw [assessDataQuality, if_neg h]
  dsimp only
  norm_num [List.sum_cons, List.sum_nil]
  ring_nf

/-- Witness for C4: the statement applied to a concrete one-record store. -/
theorem C4_assess_data_quality_witness :
    ([(⟨PVal.pstr "KXBTC", PVal.pstr "BTC above 100k", PVal.pstr "Crypto",
        PVal.pstr "open", PVal.pint 95, PVal.pint 1000,
        PVal.pstr "2025-01-01T00:00:00"⟩ : Record)] ≠ []) ∧
    assessDataQuality
        [⟨PVal.pstr "KXBTC", PVal.pstr "BTC above 100k", PVal.pstr "Crypto",
          PVal.pstr "open", PVal.pint 95, PVal.pint 1000,
          PVal.pstr "2025-01-01T00:00:00"⟩] =
      (checkCompleteness
          [⟨PVal.pstr "KXBTC", PVal.pstr "BTC above 100k", PVal.pstr "Crypto",
            PVal.pstr "open", PVal.pint 95, PVal.pint 1000,
            PVal.pstr "2025-01-01T00:00:00"⟩] +
        checkAccuracy
          [⟨PVal.pstr "KXBTC", PVal.pstr "BTC above 100k", PVal.pstr "Crypto",
            PVal.pstr "open", PVal.pint 95, PVal.pint 1000,
            PVal.pstr "2025-01-01T00:00:00"⟩] +
        checkConsistency
          [⟨PVal.pstr "KXBTC", PVal.pstr "BTC above 100k", PVal.pstr "Crypto",
            PVal.pstr "open", PVal.pint 95, PVal.pint 1000,
            PVal.pstr "2025-01-01T00:00:00"⟩] + 1) / 4 :=
  ⟨List.cons_ne_nil _ _,
   C4_assess_data_quality_mean _ (List.cons_ne_nil _ _)⟩

/-- C5: `validate_data` accepts a processed record iff each of the required
fields `ticker`, `title` and `category` is truthy (present and non-empty)
and differs from the string `N/A`; and a record rejected by `validate_data`
is never appended to the data store by `process_and_store`. -/
theorem C5_validate_data_spec :
    (∀ r : Record, validateData r = true ↔
      ((r.ticker.truthy = true ∧ r.ticker ≠ PVal.pstr "N/A") ∧
       (r.title.truthy = true ∧ r.title ≠ PVal.pstr "N/A") ∧
       (r.category.truthy = true ∧ r.category ≠ PVal.pstr "N/A"))) ∧
    (∀ (st : AgentState) (d : RawMarket) (ts : String),
      validateData (processData d ts) = false →
        (processAndStore st d ts).data_store = st.data_store) := by
  constructor
  · intro r
    simp [validateData, fieldOk, and_assoc]
  · intro st d ts h
    unfold processAndStore
    simp only [h, Bool.false_eq_true, if_false]

/-- Witness for C5: a record whose ticker defaults to `N/A` is rejected and
not stored. -/
theorem C5_validate_data_witness :
    validateData (processData ⟨none, none, none, none, none, none⟩ "t") = false ∧
    (processAndStore initState ⟨none, none, none, none, none, none⟩ "t").data_store =
      initState.data_store :=
  ⟨by decide,
   C5_validate_data_spec.2 initState ⟨none, none, none, none, none, none⟩ "t"
     (by decide)⟩

/-- C6: `process_data` replaces each absent field by its default — `N/A` for
ticker and title, `Unknown` for category and status, 0 for last_price and
volume — and keeps the value of each present field. -/
theorem C6_process_data_defaults (d : RawMarket) (ts : String) :
    ((d.ticker = none → (processData d ts).ticker = PVal.pstr "N/A") ∧
     ∀ v, d.ticker = some v → (processData d ts).ticker = v) ∧
    ((d.title = none → (processData d ts).title = PVal.pstr "N/A") ∧
     ∀ v, d.title = some v → (processData d ts).title = v) ∧
    ((d.category = none → (processData d ts).category = PVal.pstr "Unknown") ∧
     ∀ v, d.category = some v → (processData d ts).category = v) ∧
    ((d.status = none → (processData d ts).status = PVal.pstr "Unknown") ∧
     ∀ v, d.status = some v → (processData d ts).status = v) ∧
    ((d.last_price = none → (processData d ts).last_price = PVal.pint 0) ∧
     ∀ v, d.last_price = some v → (processData d ts).last_price = v) ∧
    ((d.volume = none → (processData d ts).volume = PVal.pint 0) ∧
     ∀ v, d.volume = some v → (processData d ts).volume = v) := by
  refine ⟨⟨?_, ?_⟩, ⟨?_, ?_⟩, ⟨?_, ?_⟩, ⟨?_, ?_⟩, ⟨?_, ?_⟩, ⟨?_, ?_⟩⟩ <;>
    first
    | (intro h; simp [processData, h])
    | (intro v h; simp [processData, h])

/-- Witness for C6: defaults at the all-absent response and kept values at a
partially present one. -/
theorem C6_process_data_witness :
    (processData ⟨none, none, none, none, none, none⟩ "t").ticker = PVal.pstr "N/A" ∧
    (processData ⟨none, none, none, none, none, none⟩ "t").category = PVal.pstr "Unknown" ∧
    (processData ⟨none, none, none, none, none, none⟩ "t").last_price = PVal.pint 0 ∧
    (processData ⟨some (PVal.pstr "KX"), none, none, none, some (PVal.pint 7), none⟩
        "t").ticker = PVal.pstr "KX" ∧
    (processData ⟨some (PVal.pstr "KX"), none, none, none, some (PVal.pint 7), none⟩
        "t").last_price = PVal.pint 7 :=
  ⟨(C6_process_data_defaults _ "t").1.1 rfl,
   (C6_process_data_defaults _ "t").2.2.1.1 rfl,
   (C6_process_data_defaults _ "t").2.2.2.2.1.1 rfl,
   (C6_process_data_defaults _ "t").1.2 _ rfl,
   (C6_process_data_defaults _ "t").2.2.2.2.1.2 _ rfl⟩

/-- C8 as stated fails for the Kalshi agent: `save_reports` opens four JSON
output files per run, not one. -/
theorem C8_one_file_cex : ¬ (saveReportsFiles.length = 1) := by decide

/-- C8 amended: the Kalshi agent writes exactly four JSON output files per
run, `holidays.py` writes exactly one, and `cat-facts.py` writes one when at
least one fact was collected and none otherwise. -/
theorem C8_output_files :
    saveReportsFiles.length = 4 ∧
    Holidays.holidaysFilesWritten.length = 1 ∧
    ∀ facts : List String,
      (catFactsFilesWritten facts).length = if facts.isEmpty then 0 else 1 := by
  refine ⟨rfl, rfl, fun facts => ?_⟩
  by_cases h : facts.isEmpty <;> simp [catFactsFilesWritten, h]

/-- C9: through `collect_batch` the delay multiplier never decreases — it is
unchanged or doubled, the 0.8-shrinking branch of `adjust_strategy` being
unreachable there since `collect_batch` invokes it only below a 0.8 success
rate — and the invariant `1 ≤ delay_multiplier` is preserved by every
`collect_batch` step and holds after every run from the initial value 1.0. -/
theorem C9_delay_never_decreases :
    (∀ (st : AgentState) (o : ApiOutcome),
      (collectBatch st o).1.delay_multiplier = st.delay_multiplier ∨
      (collectBatch st o).1.delay_multiplier = st.delay_multiplier * 2) ∧
    (∀ (st : AgentState) (o : ApiOutcome), 1 ≤ st.delay_multiplier →
      st.delay_multiplier ≤ (collectBatch st o).1.delay_multiplier ∧
      1 ≤ (collectBatch st o).1.delay_multiplier) ∧
    (∀ steps : List (ApiOutcome × String),
      1 ≤ (runAll initState steps).delay_multiplier) := by
  refine ⟨collectBatch_delay, fun st o h1 => ?_, fun steps => ?_⟩
  · rcases collectBatch_delay st o with hc | hc <;> rw [hc] <;>
      constructor <;> linarith
  · exact runAll_delay_ge steps initState (le_refl 1)

/-- Witness for C9: the statement applied at the initial state and a failed
request. -/
theorem C9_delay_witness :
    ((collectBatch initState ApiOutcome.httpError).1.delay_multiplier =
        initState.delay_multiplier ∨
      (collectBatch initState ApiOutcome.httpError).1.delay_multiplier =
        initState.delay_multiplier * 2) ∧
    (initState.delay_multiplier ≤
        (collectBatch initState ApiOutcome.httpError).1.delay_multiplier ∧
      1 ≤ (collectBatch initState ApiOutcome.httpError).1.delay_multiplier) ∧
    1 ≤ (runAll initState []).delay_multiplier :=
  ⟨C9_delay_never_decreases.1 initState ApiOutcome.httpError,
   C9_delay_never_decreases.2.1 initState ApiOutcome.httpError (le_refl 1),
   C9_delay_never_decreases.2.2 []⟩

/-- C10 as stated fails: a 200 response whose body fails to parse increments
`successful_requests` (before parsing) and then `failed_requests` (in the
exception handler), so after one such call `total_requests` is 1 while the
other two counters sum to 2. -/
theorem C10_counters_cex :
    ¬ ((runAll initState
          [(ApiOutcome.okBadBody, "t")]).collection_stats.total_requests =
        (runAll initState
          [(ApiOutcome.okBadBody, "t")]).collection_stats.successful_requests +
        (runAll initState
          [(ApiOutcome.okBadBody, "t")]).collection_stats.failed_requests) := by
  norm_num [runAll, runStep, collectBatch, makeApiRequest, adjustStrategy,
    getSuccessRate, initState]

/-- C10 amended: after every run every stored record satisfies
`validate_data`; and provided no 200 response had an unparseable body,
the counters satisfy total = successful + failed (each call increments
`total_requests` once and exactly one of the other two counters). -/
theorem C10_agent_invariants (steps : List (ApiOutcome × String)) :
    (∀ r ∈ (runAll initState steps).data_store, validateData r = true) ∧
    ((∀ p ∈ steps, p.1 ≠ ApiOutcome.okBadBody) →
      (runAll initState steps).collection_stats.total_requests =
        (runAll initState steps).collection_stats.successful_requests +
          (runAll initState steps).collection_stats.failed_requests) := by
  constructor
  · refine runAll_store_valid steps initState ?_
    intro r hr
    simp [initState] at hr
  · intro hno
    exact runAll_counts steps initState hno rfl

/-- Witness for C10: the amended statement applied to a concrete run. -/
theorem C10_agent_invariants_witness :
    (runAll initState
        [(ApiOutcome.httpError, "t")]).collection_stats.total_requests =
      (runAll initState
          [(ApiOutcome.httpError, "t")]).collection_stats.successful_requests +
        (runAll initState
          [(ApiOutcome.httpError, "t")]).collection_stats.failed_requests :=
  (C10_agent_invariants [(ApiOutcome.httpError, "t")]).2 (by decide)

/-- C2 as stated fails for `get_cat_facts`: its exception guard wraps the
whole request loop, so with two planned requests whose first raises, only
one request is attempted instead of two. -/
theorem C2_cat_facts_cex :
    ¬ ((CatFacts.getCatFacts
          [CatFacts.FactOutcome.raised,
           CatFacts.FactOutcome.ok (some "Cats sleep a lot.")]).2 = 2) := by
  decide

/-- C2 amended: `make_api_request` and `get_public_holidays` guard each
network call individually (a raised request yields a `None` result with the
failure counter incremented), but in `get_cat_facts` the guard wraps the
whole loop: without exceptions all planned requests are attempted, while a
raised request stops the loop — with k exception-free requests before it,
exactly k + 1 requests are attempted and exactly the facts of those first k
outcomes are returned. -/
theorem C2_error_guards :
    (∀ stats : CollectionStats,
      (makeApiRequest stats ApiOutcome.requestError).2 = none ∧
      (makeApiRequest stats ApiOutcome.requestError).1.total_requests =
        stats.total_requests + 1 ∧
      (makeApiRequest stats ApiOutcome.requestError).1.failed_requests =
        stats.failed_requests + 1) ∧
    Holidays.getPublicHolidays Holidays.HolOutcome.raised = none ∧
    (∀ outcomes : List FactOutcome,
      FactOutcome.raised ∉ outcomes →
        (getCatFacts outcomes).2 = outcomes.length) ∧
    (∀ pre post : List FactOutcome,
      FactOutcome.raised ∉ pre →
        (getCatFacts (pre ++ FactOutcome.raised :: post)).2 = pre.length + 1 ∧
        (getCatFacts (pre ++ FactOutcome.raised :: post)).1 = (getCatFacts pre).1) := by
  refine ⟨fun stats => ⟨rfl, rfl, rfl⟩, rfl, factsLoop_attempts, fun pre post h => ?_⟩
  have h2 := factsLoop_abort pre post h
  unfold getCatFacts
  rw [h2]
  exact ⟨rfl, rfl⟩

/-- Witness for C2: the amended statement applied at concrete outcomes. -/
theorem C2_error_guards_witness :
    (makeApiRequest ⟨3, 2, 1⟩ ApiOutcome.requestError).2 = none ∧
    (getCatFacts [FactOutcome.ok (some "f"), FactOutcome.httpErr]).2 =
      ([FactOutcome.ok (some "f"), FactOutcome.httpErr] : List FactOutcome).length ∧
    (getCatFacts ([FactOutcome.ok (some "f")] ++ FactOutcome.raised :: [])).2 =
      ([FactOutcome.ok (some "f")] : List FactOutcome).length + 1 :=
  ⟨(C2_error_guards.1 _).1,
   C2_error_guards.2.2.1 _ (by decide),
   (C2_error_guards.2.2.2 [FactOutcome.ok (some "f")] [] (by decide)).1⟩

/-- C7: serialization round-trips — parsing the written JSON text recovers
exactly the serialized value, for every JSON tree and in particular for the
three values the scripts write: the Kalshi data store, the cat-facts list,
and the holiday summary. -/
theorem C7_json_round_trip :
    (∀ v : PyJson.JVal, PyJson.loads (PyJson.dumps v) = some v) ∧
    (∀ store : List Record,
      PyJson.loads (PyJson.dumps (kalshiDataJson store)) =
        some (kalshiDataJson store)) ∧
    (∀ facts : List String,
      PyJson.loads (PyJson.dumps (catFactsJson facts)) =
        some (catFactsJson facts)) ∧
    (∀ cd : List (String × Nat),
      PyJson.loads (PyJson.dumps (Holidays.holidaySummaryJson cd)) =
        some (Holidays.holidaySummaryJson cd)) :=
  ⟨loads_dumps, fun _ => loads_dumps _,
   fun _ => loads_dumps _, fun _ => loads_dumps _⟩

end Claims
